import Mathlib

/-!
Verification of the core state machines of the claude-voice-assistant
repository: the license manager (src/core/license_manager.py), the
text-to-speech and speech-to-text engines (src/core/tts_engine.py,
src/core/stt_engine.py) and the CLI bridge (src/core/claude_bridge.py).

External effects are made explicit: the current time is an integer number
of seconds passed as an argument (modelling datetime.now()), HTTP traffic
is an oracle argument describing the outcome of the one request a method
performs, and files are carried in the state.
-/

namespace VoiceAssistant

/-- JSON values as produced by Python's json module.  Numbers are modelled
as integers (the license data only ever stores strings, objects and the
occasional integer; floats are outside the model). -/
inductive Json where
  | null : Json
  | bool (b : Bool) : Json
  | num (n : Int) : Json
  | str (s : String) : Json
  | arr (elems : List Json) : Json
  | obj (entries : List (String × Json)) : Json

/-- Python dict lookup (dict.get with no default): first matching key.
Python dicts have unique keys; on the assoc-list model the first match is
the binding. -/
def dictGet : List (String × Json) → String → Option Json
  | [], _ => none
  | (k', v) :: rest, k => if k' = k then some v else dictGet rest k

/-- Python dict.get with a default value. -/
def dictGetD (d : List (String × Json)) (k : String) (dflt : Json) : Json :=
  (dictGet d k).getD dflt

/-- Python dict assignment d[k] = v: overwrite in place, else append
(insertion order preserved, as for Python dicts). -/
def dictSet : List (String × Json) → String → Json → List (String × Json)
  | [], k, v => [(k, v)]
  | (k', v') :: rest, k, v =>
      if k' = k then (k', v) :: rest else (k', v') :: dictSet rest k v

/-- Python truthiness of a parsed JSON value (bool(x)). -/
def jsonTruthy : Json → Bool
  | .null => false
  | .bool b => b
  | .num n => n != 0
  | .str s => s ≠ ""
  | .arr xs => !xs.isEmpty
  | .obj kvs => !kvs.isEmpty

/-- Equality test of a JSON value against a Python string literal
(a non-string JSON value is never equal to a string in Python). -/
def jsonEqStr (j : Json) (s : String) : Bool :=
  match j with
  | .str t => t = s
  | _ => false

/-! ### Serialization: model of json.dump / json.load

`_save_license` writes `json.dump(self._license_data, f, indent=2,
default=str)` and `_load_license` reads `json.load(f)`.  The codec below
models this pair at the character level (compactly, without the
indentation whitespace, which json.load ignores anyway). -/

/-- The character for a decimal digit d < 10. -/
def digitChar (d : Nat) : Char := Char.ofNat (48 + d)

/-- Decimal digits of a natural number, most significant first. -/
def natChars (m : Nat) : List Char :=
  if m = 0 then ['0'] else (Nat.digits 10 m).reverse.map digitChar

/-- Decimal rendering of an integer. -/
def intChars (n : Int) : List Char :=
  if n < 0 then '-' :: natChars n.natAbs else natChars n.toNat

/-- JSON string escaping of one character (quote and backslash). -/
def escChar (c : Char) : List Char :=
  if c = '\"' ∨ c = '\\' then ['\\', c] else [c]

/-- A JSON string literal, quotes included. -/
def strChars (s : String) : List Char :=
  '\"' :: ((s.data.map escChar).flatten ++ ['\"'])

mutual

/-- Serialize a JSON value to characters. -/
def encVal : Json → List Char
  | .null => ['n', 'u', 'l', 'l']
  | .bool b => if b then ['t', 'r', 'u', 'e'] else ['f', 'a', 'l', 's', 'e']
  | .num n => intChars n
  | .str s => strChars s
  | .arr xs => '[' :: (encItems xs ++ [']'])
  | .obj kvs => '{' :: (encEntries kvs ++ ['}'])

/-- Serialize array elements, comma separated. -/
def encItems : List Json → List Char
  | [] => []
  | [x] => encVal x
  | x :: y :: rest => encVal x ++ ',' :: encItems (y :: rest)

/-- Serialize object entries, comma separated. -/
def encEntries : List (String × Json) → List Char
  | [] => []
  | [(k, v)] => strChars k ++ ':' :: encVal v
  | (k, v) :: e :: rest => strChars k ++ ':' :: encVal v ++ ',' :: encEntries (e :: rest)

end

mutual

/-- Fuel needed by the parser for a value. -/
def costVal : Json → Nat
  | .arr xs => 1 + costItems xs
  | .obj kvs => 1 + costEntries kvs
  | _ => 1

/-- Fuel needed by the parser for array elements. -/
def costItems : List Json → Nat
  | [] => 0
  | x :: more => 1 + costVal x + costItems more

/-- Fuel needed by the parser for object entries. -/
def costEntries : List (String × Json) → Nat
  | [] => 0
  | e :: more => 1 + costVal e.2 + costEntries more

end

/-- Accumulate decimal digit characters into a natural number. -/
def digitsToNat (l : List Char) : Nat :=
  l.foldl (fun a c => 10 * a + (c.toNat - 48)) 0

/-- Parse a nonempty maximal run of decimal digits. -/
def parseNatSpan (input : List Char) : Option (Nat × List Char) :=
  let ds := input.takeWhile (fun c => c.isDigit)
  if ds.isEmpty then none
  else some (digitsToNat ds, input.dropWhile (fun c => c.isDigit))

/-- Parse an optionally negated decimal integer. -/
def parseIntSpan (input : List Char) : Option (Int × List Char) :=
  if input.head? = some '-' then
    (parseNatSpan input.tail).map (fun p => (-(p.1 : Int), p.2))
  else
    (parseNatSpan input).map (fun p => ((p.1 : Int), p.2))

/-- Parse the body of a string literal (after the opening quote),
up to and including the closing quote. -/
def parseStrBody : List Char → Option (List Char × List Char)
  | [] => none
  | c :: rest =>
    if c = '\"' then some ([], rest)
    else if c = '\\' then
      match rest with
      | [] => none
      | e :: rest2 => (parseStrBody rest2).map (fun p => (e :: p.1, p.2))
    else (parseStrBody rest).map (fun p => (c :: p.1, p.2))

mutual

/-- Parse one JSON value (fuel-indexed). -/
def parseVal : Nat → List Char → Option (Json × List Char)
  | 0, _ => none
  | _ + 1, [] => none
  | fuel + 1, c :: rest =>
    if c = 'n' then
      match rest with
      | 'u' :: 'l' :: 'l' :: r => some (.null, r)
      | _ => none
    else if c = 't' then
      match rest with
      | 'r' :: 'u' :: 'e' :: r => some (.bool true, r)
      | _ => none
    else if c = 'f' then
      match rest with
      | 'a' :: 'l' :: 's' :: 'e' :: r => some (.bool false, r)
      | _ => none
    else if c = '\"' then
      (parseStrBody rest).map (fun p => (.str (String.mk p.1), p.2))
    else if c = '[' then
      if rest.head? = some ']' then some (.arr [], rest.tail)
      else (parseItems fuel rest).map (fun p => (.arr p.1, p.2))
    else if c = '{' then
      if rest.head? = some '}' then some (.obj [], rest.tail)
      else (parseEntries fuel rest).map (fun p => (.obj p.1, p.2))
    else
      (parseIntSpan (c :: rest)).map (fun p => (.num p.1, p.2))

/-- Parse one or more array elements and the closing bracket. -/
def parseItems : Nat → List Char → Option (List Json × List Char)
  | 0, _ => none
  | fuel + 1, input =>
    match parseVal fuel input with
    | none => none
    | some (v, r) =>
      match r with
      | ',' :: r2 => (parseItems fuel r2).map (fun p => (v :: p.1, p.2))
      | ']' :: r2 => some ([v], r2)
      | _ => none

/-- Parse one or more object entries and the closing brace. -/
def parseEntries : Nat → List Char → Option (List (String × Json) × List Char)
  | 0, _ => none
  | fuel + 1, input =>
    match input with
    | '\"' :: rest =>
      match parseStrBody rest with
      | none => none
      | some (k, r) =>
        match r with
        | ':' :: r2 =>
          match parseVal fuel r2 with
          | none => none
          | some (v, r3) =>
            match r3 with
            | ',' :: r4 => (parseEntries fuel r4).map (fun p => ((String.mk k, v) :: p.1, p.2))
            | '}' :: r4 => some ([(String.mk k, v)], r4)
            | _ => none
        | _ => none
    | _ => none

end

/-- Serialize a JSON value to a string (model of json.dump). -/
def encode (j : Json) : String := String.mk (encVal j)

/-- Parse a string as a single JSON value (model of json.load). -/
def decode (s : String) : Option Json :=
  match parseVal (s.data.length + 1) s.data with
  | some (j, []) => some j
  | _ => none

/-- A tail that cannot extend a numeral: empty or starting in a non-digit. -/
def tailOk (l : List Char) : Prop :=
  ∀ c, l.head? = some c → c.isDigit = false

theorem tailOk_nil : tailOk [] := by
  intro c h
  simp at h

theorem tailOk_cons {c : Char} (h : c.isDigit = false) (l : List Char) :
    tailOk (c :: l) := by
  intro d hd
  simp at hd
  subst hd
  exact h

theorem digitChar_toNat {d : Nat} (hd : d < 10) : (digitChar d).toNat = 48 + d := by
  interval_cases d <;> decide

theorem digitChar_isDigit {d : Nat} (hd : d < 10) : (digitChar d).isDigit = true := by
  interval_cases d <;> decide

theorem digitsToNat_aux (L : List Nat) (a : Nat) (h : ∀ d ∈ L, d < 10) :
    List.foldl (fun acc c => 10 * acc + (c.toNat - 48)) a (L.reverse.map digitChar)
      = a * 10 ^ L.length + Nat.ofDigits 10 L := by
  induction L generalizing a with
  | nil => simp [Nat.ofDigits]
  | cons d L ih =>
    have hd : d < 10 := h d (by simp)
    have hL : ∀ x ∈ L, x < 10 := fun x hx => h x (by simp [hx])
    simp only [List.reverse_cons, List.map_append, List.foldl_append, List.map_cons,
      List.map_nil, List.foldl_cons, List.foldl_nil]
    rw [ih a hL, digitChar_toNat hd]
    simp only [List.length_cons, Nat.ofDigits_cons]
    ring_nf
    omega

theorem digitsToNat_natChars (m : Nat) : digitsToNat (natChars m) = m := by
  by_cases hm : m = 0
  · rw [hm]
    decide
  · have hlt : ∀ d ∈ Nat.digits 10 m, d < 10 :=
      fun d hd => Nat.digits_lt_base (by norm_num) hd
    rw [natChars, if_neg hm, digitsToNat, digitsToNat_aux _ 0 hlt]
    simp [Nat.ofDigits_digits]

theorem natChars_ne_nil (m : Nat) : natChars m ≠ [] := by
  by_cases hm : m = 0
  · rw [natChars, if_pos hm]
    simp
  · rw [natChars, if_neg hm]
    simp [Nat.digits_ne_nil_iff_ne_zero.mpr hm]

theorem mem_natChars_isDigit {m : Nat} {c : Char} (h : c ∈ natChars m) :
    c.isDigit = true := by
  by_cases hm : m = 0
  · rw [natChars, if_pos hm] at h
    simp at h
    rw [h]
    decide
  · rw [natChars, if_neg hm] at h
    simp at h
    obtain ⟨d, hd, hdc⟩ := h
    rw [← hdc]
    exact digitChar_isDigit (Nat.digits_lt_base (by norm_num) hd)

theorem ne_nil_isEmpty {α : Type} {l : List α} (h : l ≠ []) : l.isEmpty = false := by
  cases l with
  | nil => exact absurd rfl h
  | cons a t => rfl

theorem takeWhile_dropWhile_append (p : Char → Bool) (l rest : List Char)
    (h1 : ∀ c ∈ l, p c = true) (h2 : ∀ c, rest.head? = some c → p c = false) :
    (l ++ rest).takeWhile p = l ∧ (l ++ rest).dropWhile p = rest := by
  induction l with
  | nil =>
    simp only [List.nil_append]
    cases rest with
    | nil => simp
    | cons c t =>
      have hc : p c = false := h2 c rfl
      simp [List.takeWhile_cons, List.dropWhile_cons, hc]
  | cons c t ih =>
    have hc : p c = true := h1 c (by simp)
    have ht : ∀ x ∈ t, p x = true := fun x hx => h1 x (by simp [hx])
    obtain ⟨ihT, ihD⟩ := ih ht
    simp [List.takeWhile_cons, List.dropWhile_cons, hc, ihT, ihD]

theorem parseNatSpan_natChars (m : Nat) (rest : List Char) (ht : tailOk rest) :
    parseNatSpan (natChars m ++ rest) = some (m, rest) := by
  obtain ⟨hT, hD⟩ := takeWhile_dropWhile_append (fun c => c.isDigit) (natChars m) rest
    (fun c hc => mem_natChars_isDigit hc) ht
  rw [parseNatSpan]
  simp only [hT, hD, ne_nil_isEmpty (natChars_ne_nil m)]
  simp [digitsToNat_natChars]

theorem parseIntSpan_intChars (n : Int) (rest : List Char) (ht : tailOk rest) :
    parseIntSpan (intChars n ++ rest) = some (n, rest) := by
  by_cases hn : n < 0
  · rw [intChars, if_pos hn]
    rw [parseIntSpan]
    simp only [List.cons_append, List.head?_cons, List.tail_cons, if_pos rfl]
    rw [parseNatSpan_natChars _ _ ht]
    simp [abs_of_neg hn]
  · obtain ⟨c, cs, hcc⟩ := List.exists_cons_of_ne_nil (natChars_ne_nil n.toNat)
    have hcd : c.isDigit = true := mem_natChars_isDigit (by rw [hcc]; simp)
    have hcm : c ≠ '-' := by
      intro hh
      rw [hh] at hcd
      exact absurd hcd (by decide)
    rw [intChars, if_neg hn]
    rw [parseIntSpan, hcc]
    simp only [List.cons_append, List.head?_cons]
    rw [if_neg (by simp [hcm])]
    rw [← List.cons_append, ← hcc, parseNatSpan_natChars _ _ ht]
    have : ((n.toNat : Nat) : Int) = n := Int.toNat_of_nonneg (by omega)
    simp [this]

theorem parseStrBody_cons (c : Char) (rest : List Char) :
    parseStrBody (c :: rest) =
      if c = '\"' then some ([], rest)
      else if c = '\\' then
        match rest with
        | [] => none
        | e :: rest2 => (parseStrBody rest2).map (fun p => (e :: p.1, p.2))
      else (parseStrBody rest).map (fun p => (c :: p.1, p.2)) := by
  rw [parseStrBody.eq_def]

theorem parseStrBody_escaped (l : List Char) (rest : List Char) :
    parseStrBody ((l.map escChar).flatten ++ ('\"' :: rest)) = some (l, rest) := by
  induction l with
  | nil =>
    simp only [List.map_nil, List.flatten_nil, List.nil_append]
    rw [parseStrBody_cons]
    simp
  | cons c t ih =>
    by_cases hc : c = '\"' ∨ c = '\\'
    · have he : escChar c = ['\\', c] := by rw [escChar, if_pos hc]
      simp only [List.map_cons, List.flatten_cons, he, List.cons_append, List.append_assoc,
        List.nil_append]
      rw [parseStrBody_cons]
      simp [ih]
    · have he : escChar c = [c] := by rw [escChar, if_neg hc]
      push_neg at hc
      simp only [List.map_cons, List.flatten_cons, he, List.cons_append, List.nil_append]
      rw [parseStrBody_cons, if_neg hc.1, if_neg hc.2]
      rw [ih]
      rfl

theorem stringMk_data (s : String) : String.mk s.data = s := rfl

theorem isDigit_ne {c d : Char} (h : c.isDigit = true) (hd : d.isDigit = false) : c ≠ d := by
  intro he
  rw [he] at h
  rw [h] at hd
  simp at hd

theorem numStart_ne {c : Char} (h : c = '-' ∨ c.isDigit = true) :
    c ≠ 'n' ∧ c ≠ 't' ∧ c ≠ 'f' ∧ c ≠ '\"' ∧ c ≠ '[' ∧ c ≠ '{' := by
  rcases h with h | h
  · subst h
    refine ⟨?_, ?_, ?_, ?_, ?_, ?_⟩ <;> decide
  · refine ⟨?_, ?_, ?_, ?_, ?_, ?_⟩ <;> exact isDigit_ne h (by decide)

theorem intChars_shape (n : Int) :
    ∃ c cs, intChars n = c :: cs ∧ (c = '-' ∨ c.isDigit = true) := by
  by_cases hn : n < 0
  · exact ⟨'-', natChars n.natAbs, by rw [intChars, if_pos hn], Or.inl rfl⟩
  · obtain ⟨c, cs, hcc⟩ := List.exists_cons_of_ne_nil (natChars_ne_nil n.toNat)
    refine ⟨c, cs, by rw [intChars, if_neg hn, hcc], Or.inr ?_⟩
    exact mem_natChars_isDigit (by rw [hcc]; simp)

theorem intChars_ne_nil (n : Int) : intChars n ≠ [] := by
  obtain ⟨c, cs, hcc, _⟩ := intChars_shape n
  simp [hcc]

theorem encVal_shape (j : Json) : ∃ c cs, encVal j = c :: cs ∧
    (c = 'n' ∨ c = 't' ∨ c = 'f' ∨ c = '\"' ∨ c = '[' ∨ c = '{' ∨ c = '-' ∨ c.isDigit = true) := by
  cases j with
  | null => exact ⟨'n', ['u', 'l', 'l'], by simp [encVal], by simp⟩
  | bool b =>
    cases b with
    | true => exact ⟨'t', ['r', 'u', 'e'], by simp [encVal], by simp⟩
    | false => exact ⟨'f', ['a', 'l', 's', 'e'], by simp [encVal], by simp⟩
  | num n =>
    obtain ⟨c, cs, hcc, hs⟩ := intChars_shape n
    refine ⟨c, cs, by simp [encVal, hcc], ?_⟩
    rcases hs with h | h
    · simp [h]
    · simp [h]
  | str s =>
    exact ⟨'\"', (s.data.map escChar).flatten ++ ['\"'], by simp [encVal, strChars], by simp⟩
  | arr xs => exact ⟨'[', encItems xs ++ [']'], by simp [encVal], by simp⟩
  | obj kvs => exact ⟨'{', encEntries kvs ++ ['}'], by simp [encVal], by simp⟩

theorem startChar_ne_close {c : Char}
    (h : c = 'n' ∨ c = 't' ∨ c = 'f' ∨ c = '\"' ∨ c = '[' ∨ c = '{' ∨ c = '-' ∨
      c.isDigit = true) : c ≠ ']' := by
  rcases h with h | h | h | h | h | h | h | h
  all_goals first
  | (subst h; decide)
  | exact isDigit_ne h (by decide)

theorem encItems_cons_shape (x : Json) (t : List Json) :
    ∃ tl, encItems (x :: t) = encVal x ++ tl := by
  cases t with
  | nil => exact ⟨[], by simp [encItems]⟩
  | cons y t2 => exact ⟨',' :: encItems (y :: t2), by simp [encItems]⟩

theorem encEntries_cons_shape (k : String) (v : Json) (t : List (String × Json)) :
    ∃ tl, encEntries ((k, v) :: t) = '\"' :: tl := by
  cases t with
  | nil =>
    exact ⟨((k.data.map escChar).flatten ++ ['\"']) ++ ':' :: encVal v,
      by simp [encEntries, strChars]⟩
  | cons e t2 =>
    exact ⟨((k.data.map escChar).flatten ++ ['\"']) ++ ':' :: encVal v ++ ',' :: encEntries (e :: t2),
      by simp [encEntries, strChars]⟩

theorem costVal_pos (j : Json) : 1 ≤ costVal j := by
  cases j <;> simp [costVal]

mutual

theorem parseVal_encVal (fuel : Nat) (j : Json) (rest : List Char)
    (hc : costVal j ≤ fuel) (ht : tailOk rest) :
    parseVal fuel (encVal j ++ rest) = some (j, rest) := by
  match fuel with
  | 0 =>
    have := costVal_pos j
    omega
  | f + 1 =>
    cases j with
    | null => simp [encVal, parseVal]
    | bool b => cases b <;> simp [encVal, parseVal]
    | num n =>
      obtain ⟨c, cs, hcc, hs⟩ := intChars_shape n
      obtain ⟨n1, n2, n3, n4, n5, n6⟩ := numStart_ne hs
      have henc : encVal (.num n) = intChars n := by simp [encVal]
      rw [henc, hcc]
      simp only [List.cons_append]
      simp only [parseVal, if_neg n1, if_neg n2, if_neg n3, if_neg n4, if_neg n5, if_neg n6]
      rw [← List.cons_append, ← hcc, parseIntSpan_intChars n rest ht]
      rfl
    | str s =>
      have henc : encVal (.str s) ++ rest
          = '\"' :: ((s.data.map escChar).flatten ++ ('\"' :: rest)) := by
        simp [encVal, strChars]
      rw [henc]
      simp only [parseVal, if_neg (by decide : ¬('\"' : Char) = 'n'),
        if_neg (by decide : ¬('\"' : Char) = 't'), if_neg (by decide : ¬('\"' : Char) = 'f'),
        if_true]
      rw [parseStrBody_escaped]
      simp [stringMk_data]
    | arr xs =>
      cases xs with
      | nil => simp [encVal, encItems, parseVal]
      | cons x t =>
        have hc2 : costItems (x :: t) ≤ f := by
          simp only [costVal] at hc
          omega
        obtain ⟨tl, htl⟩ := encItems_cons_shape x t
        obtain ⟨c, cs, hcc, hs⟩ := encVal_shape x
        have hclose : c ≠ ']' := startChar_ne_close hs
        have hhead : (encItems (x :: t) ++ ']' :: rest).head? = some c := by
          rw [htl, hcc]
          simp
        have henc : encVal (.arr (x :: t)) ++ rest
            = '[' :: (encItems (x :: t) ++ ']' :: rest) := by
          simp [encVal]
        rw [henc]
        simp only [parseVal, if_neg (by decide : ¬('[' : Char) = 'n'),
          if_neg (by decide : ¬('[' : Char) = 't'), if_neg (by decide : ¬('[' : Char) = 'f'),
          if_neg (by decide : ¬('[' : Char) = '\"'), if_true]
        rw [if_neg (by rw [hhead]; simp [hclose])]
        rw [parseItems_encItems f (x :: t) rest (by simp) hc2]
        rfl
    | obj kvs =>
      cases kvs with
      | nil => simp [encVal, encEntries, parseVal]
      | cons e t =>
        obtain ⟨k, v⟩ := e
        have hc2 : costEntries ((k, v) :: t) ≤ f := by
          simp only [costVal] at hc
          omega
        obtain ⟨tl, htl⟩ := encEntries_cons_shape k v t
        have hhead : (encEntries ((k, v) :: t) ++ '}' :: rest).head? = some '\"' := by
          rw [htl]
          simp
        have henc : encVal (.obj ((k, v) :: t)) ++ rest
            = '{' :: (encEntries ((k, v) :: t) ++ '}' :: rest) := by
          simp [encVal]
        rw [henc]
        simp only [parseVal, if_neg (by decide : ¬('{' : Char) = 'n'),
          if_neg (by decide : ¬('{' : Char) = 't'), if_neg (by decide : ¬('{' : Char) = 'f'),
          if_neg (by decide : ¬('{' : Char) = '\"'),
          if_neg (by decide : ¬('{' : Char) = '['), if_true]
        rw [if_neg (by rw [hhead]; simp)]
        rw [parseEntries_encEntries f ((k, v) :: t) rest (by simp) hc2]
        rfl

theorem parseItems_encItems (fuel : Nat) (xs : List Json) (rest : List Char)
    (hne : xs ≠ []) (hc : costItems xs ≤ fuel) :
    parseItems fuel (encItems xs ++ ']' :: rest) = some (xs, rest) := by
  match fuel, xs with
  | _, [] => exact absurd rfl hne
  | 0, x :: t =>
    have := costVal_pos x
    simp only [costItems] at hc
    omega
  | f + 1, [x] =>
    have h1 : costVal x ≤ f := by
      simp only [costItems] at hc
      omega
    have h2 := parseVal_encVal f x (']' :: rest) h1 (tailOk_cons (by decide) rest)
    have henc : encItems [x] ++ ']' :: rest = encVal x ++ ']' :: rest := by
      simp [encItems]
    rw [henc]
    simp only [parseItems, h2]
  | f + 1, x :: y :: t =>
    have h1 : costVal x ≤ f := by
      simp only [costItems] at hc
      omega
    have h2 : costItems (y :: t) ≤ f := by
      simp only [costItems] at hc
      simp only [costItems]
      omega
    have henc : encItems (x :: y :: t) ++ ']' :: rest
        = encVal x ++ (',' :: (encItems (y :: t) ++ ']' :: rest)) := by
      simp [encItems]
    have h3 := parseVal_encVal f x (',' :: (encItems (y :: t) ++ ']' :: rest)) h1
      (tailOk_cons (by decide) _)
    have h4 := parseItems_encItems f (y :: t) rest (by simp) h2
    rw [henc]
    simp only [parseItems, h3, h4]
    rfl

theorem parseEntries_encEntries (fuel : Nat) (kvs : List (String × Json)) (rest : List Char)
    (hne : kvs ≠ []) (hc : costEntries kvs ≤ fuel) :
    parseEntries fuel (encEntries kvs ++ '}' :: rest) = some (kvs, rest) := by
  match fuel, kvs with
  | _, [] => exact absurd rfl hne
  | 0, (k, v) :: t =>
    have := costVal_pos v
    simp only [costEntries] at hc
    omega
  | f + 1, [(k, v)] =>
    have h1 : costVal v ≤ f := by
      simp only [costEntries] at hc
      omega
    have h2 := parseVal_encVal f v ('}' :: rest) h1 (tailOk_cons (by decide) rest)
    have henc : encEntries [(k, v)] ++ '}' :: rest
        = '\"' :: ((k.data.map escChar).flatten ++ ('\"' :: (':' :: (encVal v ++ '}' :: rest)))) := by
      simp [encEntries, strChars]
    rw [henc]
    simp only [parseEntries]
    rw [parseStrBody_escaped]
    simp only [h2, stringMk_data]
  | f + 1, (k, v) :: e :: t =>
    have h1 : costVal v ≤ f := by
      simp only [costEntries] at hc
      omega
    have h2 : costEntries (e :: t) ≤ f := by
      obtain ⟨k2, v2⟩ := e
      simp only [costEntries] at hc
      simp only [costEntries]
      omega
    have henc : encEntries ((k, v) :: e :: t) ++ '}' :: rest
        = '\"' :: ((k.data.map escChar).flatten
            ++ ('\"' :: (':' :: (encVal v ++ (',' :: (encEntries (e :: t) ++ '}' :: rest)))))) := by
      simp [encEntries, strChars]
    have h3 := parseVal_encVal f v (',' :: (encEntries (e :: t) ++ '}' :: rest)) h1
      (tailOk_cons (by decide) _)
    have h4 := parseEntries_encEntries f (e :: t) rest (by simp) h2
    rw [henc]
    simp only [parseEntries]
    rw [parseStrBody_escaped]
    simp only [h3, h4, stringMk_data]
    rfl

end

theorem costItems_le_aux (xs : List Json) (h : ∀ x ∈ xs, costVal x ≤ (encVal x).length) :
    costItems xs ≤ (encItems xs).length + 1 := by
  induction xs with
  | nil => simp [costItems, encItems]
  | cons x t ih =>
    cases t with
    | nil =>
      have hx := h x (by simp)
      simp only [costItems, encItems, List.length_nil]
      omega
    | cons y t2 =>
      have hx := h x (by simp)
      have ih2 := ih (fun z hz => h z (by simp [hz]))
      simp only [costItems, encItems, List.length_append, List.length_cons] at *
      omega

theorem costEntries_le_aux (kvs : List (String × Json))
    (h : ∀ e ∈ kvs, costVal e.2 ≤ (encVal e.2).length) :
    costEntries kvs ≤ (encEntries kvs).length + 1 := by
  induction kvs with
  | nil => simp [costEntries, encEntries]
  | cons e t ih =>
    obtain ⟨k, v⟩ := e
    cases t with
    | nil =>
      have hv := h (k, v) (by simp)
      simp only [costEntries, encEntries, List.length_append, List.length_cons] at *
      omega
    | cons e2 t2 =>
      have hv := h (k, v) (by simp)
      have ih2 := ih (fun z hz => h z (by simp [hz]))
      simp only [costEntries, encEntries, List.length_append, List.length_cons] at *
      omega

theorem costVal_le_length : ∀ j : Json, costVal j ≤ (encVal j).length
  | .null => by simp [costVal, encVal]
  | .bool b => by cases b <;> simp [costVal, encVal]
  | .num n => by
    have h2 : intChars n ≠ [] := intChars_ne_nil n
    have h3 : 0 < (intChars n).length := List.length_pos.mpr h2
    simp only [costVal, encVal]
    omega
  | .str s => by simp [costVal, encVal, strChars]
  | .arr xs => by
    have h : ∀ x ∈ xs, costVal x ≤ (encVal x).length := fun x hx => costVal_le_length x
    have := costItems_le_aux xs h
    simp only [costVal, encVal, List.length_cons, List.length_append]
    simp
    omega
  | .obj kvs => by
    have h : ∀ e ∈ kvs, costVal e.2 ≤ (encVal e.2).length := fun e he => costVal_le_length e.2
    have := costEntries_le_aux kvs h
    simp only [costVal, encVal, List.length_cons, List.length_append]
    simp
    omega
termination_by j => sizeOf j
decreasing_by
  · have := List.sizeOf_lt_of_mem hx
    simp only [Json.arr.sizeOf_spec]
    omega
  · have h1 := List.sizeOf_lt_of_mem he
    have h2 : sizeOf e.2 < sizeOf e := by
      obtain ⟨a, b⟩ := e
      simp
    simp only [Json.obj.sizeOf_spec]
    omega

/-- The json.dump / json.load pair is the identity on JSON values:
decoding the serialized form of a value yields the value back. -/
theorem decode_encode (j : Json) : decode (encode j) = some j := by
  have hdata : (encode j).data = encVal j := rfl
  have hfuel : costVal j ≤ (encVal j).length + 1 := by
    have := costVal_le_length j
    omega
  have h := parseVal_encVal ((encVal j).length + 1) j [] hfuel tailOk_nil
  rw [List.append_nil] at h
  rw [decode, hdata, h]

/-! ### License manager (src/core/license_manager.py)

State of a LicenseManager instance.  The license.json file is carried in
the state as an optional string content; the current time (datetime.now())
is an explicit integer argument counting seconds; the one HTTP POST a
method performs is an explicit oracle argument describing its outcome. -/

inductive LicenseStatus where
  | valid
  | trial
  | trial_expired
  | expired
  | invalid
  | no_license
  | offline
  deriving DecidableEq

/-- Outcome of the single requests.post(...) call a method performs:
either a requests.RequestException, or a response with a status code and
a JSON-object body (the code only ever calls response.json().get(...),
so object bodies are the meaningful case). -/
inductive HttpResult where
  | exn (msg : String)
  | resp (status : Nat) (body : List (String × Json))

structure LicenseManager where
  server_url : String
  trial_days : Int
  license_data : List (String × Json)
  device_id : String
  status : LicenseStatus
  license_file : Option String

/-- A manager as built by LicenseManager() with default arguments (the way
the application constructs it in MainWindow.__init__) when no license file
exists yet: trial_days defaults to 30 and the loaded license data is empty. -/
def newLicenseManager (device_id : String) : LicenseManager :=
  { server_url := "https://license.srv1251441.hstgr.cloud/api"
    trial_days := 30
    license_data := []
    device_id := device_id
    status := .no_license
    license_file := none }

/-- Modelled from the spec: the datetime.isoformat timestamps stored under
trial_start / expiry_date / activated_at.  Timestamps are integer seconds
since the epoch and the stored string is their decimal rendering, an
injective encoding whose inverse below models datetime.fromisoformat. -/
def isoOfTime (t : Int) : String := String.mk (intChars t)

/-- Modelled from the spec: datetime.fromisoformat; none models the
ValueError raised on a string that is not a rendered timestamp. -/
def timeOfIso (s : String) : Option Int :=
  match parseIntSpan s.data with
  | some (n, []) => some n
  | _ => none

/-- datetime.fromisoformat applied to a JSON value from the license data;
none models the exception raised on a non-string (TypeError) or on an
unparseable string (ValueError). -/
def fromIso (j : Json) : Option Int :=
  match j with
  | .str s => timeOfIso s
  | _ => none

theorem timeOfIso_isoOfTime (t : Int) : timeOfIso (isoOfTime t) = some t := by
  have h := parseIntSpan_intChars t [] tailOk_nil
  rw [List.append_nil] at h
  have hdata : (isoOfTime t).data = intChars t := rfl
  rw [timeOfIso, hdata, h]

/-- LicenseManager.get_trial_days_left.  trial_end - trial_start is
timedelta(days=trial_days); (trial_end - now).days floors towards minus
infinity, hence Int.fdiv by 86400 seconds.  none models the exception
raised by fromisoformat on a malformed stored value. -/
def get_trial_days_left (m : LicenseManager) (now : Int) : Option Int :=
  match dictGet m.license_data "trial_start" with
  | none => some m.trial_days
  | some v =>
    match fromIso v with
    | none => none
    | some trial_start =>
      some (max 0 ((trial_start + m.trial_days * 86400 - now).fdiv 86400))

/-- LicenseManager.get_expiry_date: some none when the key is absent
(Python returns None), some (some t) for a stored timestamp, none when
fromisoformat raises. -/
def get_expiry_date (m : LicenseManager) : Option (Option Int) :=
  match dictGet m.license_data "expiry_date" with
  | none => some none
  | some v =>
    match fromIso v with
    | none => none
    | some t => some (some t)

/-- LicenseManager._save_license: json.dump of the license data into the
license file. -/
def save_license (m : LicenseManager) : LicenseManager :=
  { m with license_file := some (encode (.obj m.license_data)) }

/-- LicenseManager._load_license: when the file exists, json.load its
content; a file that fails to parse yields the empty dict (the except
branch).  The license file is modelled as holding a JSON object, which is
what _save_license writes. -/
def load_license (m : LicenseManager) : LicenseManager :=
  match m.license_file with
  | none => m
  | some content =>
    match decode content with
    | some (.obj kvs) => { m with license_data := kvs }
    | _ => { m with license_data := [] }

/-- LicenseManager.start_trial: on HTTP 200 the registered trial data
(including the server response) is stored; on any other status or on a
network exception the offline fallback data is stored; all three paths
save the file, set status TRIAL and return True. -/
def start_trial (m : LicenseManager) (email : String) (now : Int) (r : HttpResult) :
    LicenseManager × Bool :=
  match r with
  | .resp status body =>
    if status = 200 then
      let m1 := { m with license_data :=
        [("email", .str email), ("trial_start", .str (isoOfTime now)),
         ("license_type", .str "trial"), ("server_response", .obj body)] }
      let m2 := save_license m1
      ({ m2 with status := .trial }, true)
    else
      let m1 := { m with license_data :=
        [("email", .str email), ("trial_start", .str (isoOfTime now)),
         ("license_type", .str "trial_offline")] }
      let m2 := save_license m1
      ({ m2 with status := .trial }, true)
  | .exn _ =>
    let m1 := { m with license_data :=
      [("email", .str email), ("trial_start", .str (isoOfTime now)),
       ("license_type", .str "trial_offline")] }
    let m2 := save_license m1
    ({ m2 with status := .trial }, true)

/-- Python str() of a JSON value interpolated into an error f-string. -/
def jsonDisplay : Json → String
  | .str s => s
  | j => encode j

/-- LicenseManager.activate_license: on HTTP 200 the license data is
updated (license_key, license_type defaulting to pro, expiry_date,
activated_at, in that order), saved, status becomes VALID and (True, msg)
is returned; on any other status or exception (False, msg) is returned
with nothing modified. -/
def activate_license (m : LicenseManager) (license_key : String) (now : Int)
    (r : HttpResult) : LicenseManager × Bool × String :=
  match r with
  | .exn msg => (m, false, "Błąd połączenia: " ++ msg)
  | .resp status body =>
    if status = 200 then
      let d1 := dictSet m.license_data "license_key" (.str license_key)
      let d2 := dictSet d1 "license_type" (dictGetD body "license_type" (.str "pro"))
      let d3 := dictSet d2 "expiry_date" (dictGetD body "expiry_date" .null)
      let d4 := dictSet d3 "activated_at" (.str (isoOfTime now))
      let m2 := save_license { m with license_data := d4 }
      ({ m2 with status := .valid }, true, "Licencja aktywowana pomyślnie!")
    else
      (m, false,
        "Błąd aktywacji: " ++ jsonDisplay (dictGetD body "error" (.str "Nieznany błąd")))

/-- LicenseManager.validate.  The oracle r describes the outcome of the
validation POST, which the code only performs in the paid branch.  none
models an uncaught exception (fromisoformat on a malformed stored value,
reachable e.g. when the server marks the license valid without an
expiry_date, storing null there). -/
def validate (m : LicenseManager) (now : Int) (r : HttpResult) :
    Option (LicenseManager × LicenseStatus) :=
  if m.license_data.isEmpty then
    some ({ m with status := .no_license }, .no_license)
  else
    let license_type := dictGetD m.license_data "license_type" (.str "")
    if jsonEqStr license_type "trial" || jsonEqStr license_type "trial_offline" then
      match get_trial_days_left m now with
      | none => none
      | some days_left =>
        if days_left > 0 then some ({ m with status := .trial }, .trial)
        else some ({ m with status := .trial_expired }, .trial_expired)
    else if jsonEqStr license_type "pro" || jsonEqStr license_type "lifetime" then
      match r with
      | .resp status body =>
        if status = 200 then
          if jsonTruthy (dictGetD body "valid" .null) then
            let d := dictSet m.license_data "expiry_date" (dictGetD body "expiry_date" .null)
            let m2 := save_license { m with license_data := d }
            match get_expiry_date m2 with
            | none => none
            | some (some expiry) =>
              if expiry < now then some ({ m2 with status := .expired }, .expired)
              else some ({ m2 with status := .valid }, .valid)
            | some none => some ({ m2 with status := .valid }, .valid)
          else some ({ m with status := .invalid }, .invalid)
        else some ({ m with status := .offline }, .offline)
      | .exn _ =>
        match get_expiry_date m with
        | none => none
        | some (some expiry) =>
          if expiry < now then some ({ m with status := .expired }, .expired)
          else some ({ m with status := .offline }, .offline)
        | some none => some ({ m with status := .offline }, .offline)
    else
      some ({ m with status := .no_license }, .no_license)

/-- The statuses admitted by can_use_app. -/
def goodStatuses : List LicenseStatus := [.valid, .trial, .offline]

/-- LicenseManager.can_use_app: validate, then membership in the admitted
statuses. -/
def can_use_app (m : LicenseManager) (now : Int) (r : HttpResult) :
    Option (LicenseManager × Bool) :=
  (validate m now r).map (fun p => (p.1, decide (p.2 ∈ goodStatuses)))

/-! ### Text-to-speech engine (src/core/tts_engine.py)

Only the playback state machine is modelled: the state field, the two
threading events (set = true) and the temp-file list.  pygame calls and
the playback thread join are external effects with no bearing on the
state fields. -/

inductive TTSState where
  | idle
  | generating
  | playing
  | paused
  | stopped
  deriving DecidableEq

structure TTSEngine where
  state : TTSState
  stop_event : Bool
  pause_event : Bool
  temp_files : List String

/-- TTSEngine.pause: only acts when PLAYING (clears the pause event,
pauses the mixer, sets state PAUSED). -/
def TTSEngine.pause (e : TTSEngine) : TTSEngine :=
  if e.state = .playing then
    { e with pause_event := false, state := .paused }
  else e

/-- TTSEngine.resume: only acts when PAUSED (sets the pause event,
unpauses the mixer, sets state PLAYING). -/
def TTSEngine.resume (e : TTSEngine) : TTSEngine :=
  if e.state = .paused then
    { e with pause_event := true, state := .playing }
  else e

/-- TTSEngine.stop: sets both events, stops the mixer, joins the playback
thread, removes the temp files and always ends IDLE. -/
def TTSEngine.stop (e : TTSEngine) : TTSEngine :=
  { e with stop_event := true, pause_event := true, temp_files := [], state := .idle }

/-! ### Speech-to-text engine (src/core/stt_engine.py) -/

inductive STTState where
  | idle
  | recording
  | processing
  deriving DecidableEq

/-- The hosted Whisper transcription endpoint (STTEngine.api_url). -/
def groq_api_url : String := "https://api.groq.com/openai/v1/audio/transcriptions"

/-- A WAV file as written by STTEngine._save_wav: sampwidth 2 (16-bit),
the engine's channel count and sample rate, frames holding the
concatenated recorded samples. -/
structure WavFile where
  nchannels : Nat
  sampwidth : Nat
  framerate : Nat
  frames : List Int
  deriving DecidableEq

/-- Externally observable actions of the STT engine: callback invocations,
the WAV file write and the HTTP upload. -/
inductive STTEvent where
  | state_changed (s : STTState)
  | wav_written (w : WavFile)
  | uploaded (url : String) (w : WavFile)
  | transcription (text : String)
  | error_cb (msg : String)
  deriving DecidableEq

/-- Outcome of the requests.post to the Groq endpoint: a response with
status code and text body, or a raised exception. -/
inductive GroqResult where
  | exn (msg : String)
  | resp (status : Nat) (body : String)

structure STTEngine where
  api_key : String
  language : String
  sample_rate : Nat
  channels : Nat
  state : STTState
  audio_buffer : List (List Int)
  stop_flag : Bool

/-- An engine as built by STTEngine(api_key): 16 kHz mono, idle, empty
buffer (the application constructs STTEngine() with an empty key until one
is configured). -/
def newSTTEngine (api_key : String) : STTEngine :=
  { api_key := api_key
    language := "pl"
    sample_rate := 16000
    channels := 1
    state := .idle
    audio_buffer := []
    stop_flag := false }

/-- STTEngine._transcribe_audio, run to completion: with no API key the
ValueError is caught and reported; otherwise the buffer is concatenated,
written as a WAV file and posted to the Groq endpoint; HTTP 200 yields the
stripped text (reported only when non-empty), anything else raises and is
reported; the finally block always clears the buffer and returns to IDLE. -/
def transcribe_audio (e : STTEngine) (r : GroqResult) : STTEngine × List STTEvent :=
  let done := fun (evts : List STTEvent) =>
    ({ e with audio_buffer := [], state := .idle }, evts ++ [.state_changed .idle])
  if e.api_key = "" then
    done [.error_cb "Transcription error: Groq API key not set"]
  else
    let wav : WavFile :=
      { nchannels := e.channels, sampwidth := 2, framerate := e.sample_rate,
        frames := e.audio_buffer.flatten }
    match r with
    | .resp status body =>
      if status = 200 then
        let text := body.trim
        done ([.wav_written wav, .uploaded groq_api_url wav]
          ++ (if text ≠ "" then [.transcription text] else []))
      else
        done [.wav_written wav, .uploaded groq_api_url wav,
          .error_cb ("Transcription error: API error "
            ++ String.mk (natChars status) ++ ": " ++ body)]
    | .exn msg =>
      done [.wav_written wav, .uploaded groq_api_url wav,
        .error_cb ("Transcription error: " ++ msg)]

/-- STTEngine.stop_recording followed by the background transcription it
spawns (run to completion, with the Groq outcome as oracle): a no-op
unless RECORDING; with an empty buffer straight back to IDLE; otherwise
PROCESSING and then _transcribe_audio. -/
def stop_recording (e : STTEngine) (r : GroqResult) : STTEngine × List STTEvent :=
  if e.state ≠ .recording then (e, [])
  else
    let e1 := { e with stop_flag := true }
    if e1.audio_buffer.isEmpty then
      ({ e1 with state := .idle }, [.state_changed .idle])
    else
      let e2 := { e1 with state := .processing }
      let p := transcribe_audio e2 r
      (p.1, .state_changed .processing :: p.2)

/-! ### Claude CLI bridge (src/core/claude_bridge.py) -/

/-- One run of ClaudeBridge._execute_query without an exception: the
argument vector the subprocess is launched with, the on_output invocations
in order, and the on_response_complete invocation if any. -/
structure BridgeRun where
  args : List String
  outputs : List String
  completion : Option String

/-- ClaudeBridge._execute_query with the subprocess stdout lines as
oracle: emits the processing banner, launches [command, --print, text],
accumulates response_text line by line while forwarding each line to
on_output, and calls on_response_complete exactly when the accumulated
text is non-blank. -/
def execute_query (command : String) (text : String) (lines : List String) : BridgeRun :=
  let fin := lines.foldl
    (fun (acc : String × List String) line => (acc.1 ++ line, acc.2 ++ [line]))
    ("", ["⏳ Processing...\n"])
  { args := [command, "--print", text]
    outputs := fin.2
    completion := if fin.1.trim ≠ "" then some fin.1 else none }

/-- The concatenation of the streamed stdout lines (response_text). -/
def concatLines (lines : List String) : String :=
  lines.foldl (fun a b => a ++ b) ""

/-- The license_type stored by start_trial for a given server outcome. -/
def trialTypeOf (r : HttpResult) : String :=
  match r with
  | .resp status _ => if status = 200 then "trial" else "trial_offline"
  | .exn _ => "trial_offline"

/-! ### Supporting lemmas -/

theorem jsonEqStr_eq_true {j : Json} {s : String} (h : jsonEqStr j s = true) :
    j = .str s := by
  cases j <;> simp [jsonEqStr] at h
  rw [h]

theorem dictGet_dictSet_self (d : List (String × Json)) (k : String) (v : Json) :
    dictGet (dictSet d k v) k = some v := by
  induction d with
  | nil => simp [dictSet, dictGet]
  | cons e rest ih =>
    obtain ⟨k', v'⟩ := e
    by_cases hk : k' = k
    · simp [dictSet, dictGet, hk]
    · simp [dictSet, dictGet, hk, ih]

theorem dictGet_dictSet_ne (d : List (String × Json)) (k' k : String) (v : Json)
    (h : k' ≠ k) : dictGet (dictSet d k' v) k = dictGet d k := by
  induction d with
  | nil => simp [dictSet, dictGet, h]
  | cons e rest ih =>
    obtain ⟨k2, v2⟩ := e
    by_cases hk : k2 = k'
    · simp [dictSet, dictGet, hk, h]
    · simp [dictSet, dictGet, hk, ih]

theorem foldl_acc_pair (lines : List String) (s : String) (out : List String) :
    lines.foldl (fun (acc : String × List String) line => (acc.1 ++ line, acc.2 ++ [line]))
        (s, out)
      = (lines.foldl (fun a b => a ++ b) s, out ++ lines) := by
  induction lines generalizing s out with
  | nil => simp
  | cons l ls ih =>
    simp only [List.foldl_cons]
    rw [ih]
    simp

/-! ### The claims -/

/-- C3: for every query text, the bridge launches the external CLI in
print mode with arguments [command, --print, text], invokes on_output once
per stdout line in the order produced (after the initial processing
banner), and invokes on_response_complete with the concatenation of the
streamed lines exactly when that concatenation is non-blank. -/
theorem claim3_bridge_streams (command text : String) (lines : List String) :
    (execute_query command text lines).args = [command, "--print", text] ∧
    (execute_query command text lines).outputs = "⏳ Processing...\n" :: lines ∧
    (execute_query command text lines).completion
      = (if (concatLines lines).trim ≠ "" then some (concatLines lines) else none) := by
  have hf := foldl_acc_pair lines "" ["⏳ Processing...\n"]
  refine ⟨rfl, ?_, ?_⟩
  · rw [execute_query]
    simp only [hf]
    simp
  · rw [execute_query]
    simp only [hf]
    rfl

/-- C6: the TTS playback state machine only transitions along its intended
edges: pause moves PLAYING to PAUSED and is otherwise a no-op, resume
moves PAUSED to PLAYING and is otherwise a no-op, and stop always leaves
the state IDLE. -/
theorem claim6_tts_transitions (e : TTSEngine) :
    (e.state = .playing → e.pause.state = .paused) ∧
    (e.state ≠ .playing → e.pause = e) ∧
    (e.state = .paused → e.resume.state = .playing) ∧
    (e.state ≠ .paused → e.resume = e) ∧
    e.stop.state = .idle := by
  refine ⟨?_, ?_, ?_, ?_, rfl⟩
  · intro h
    simp [TTSEngine.pause, h]
  · intro h
    simp [TTSEngine.pause, h]
  · intro h
    simp [TTSEngine.resume, h]
  · intro h
    simp [TTSEngine.resume, h]

/-- C6 witness: the transitions at a concrete engine. -/
theorem claim6_witness :
    (TTSEngine.mk .playing false true ["f.mp3"]).pause.state = .paused ∧
    (TTSEngine.mk .paused false false []).resume.state = .playing := by
  exact ⟨(claim6_tts_transitions (TTSEngine.mk .playing false true ["f.mp3"])).1 rfl,
    (claim6_tts_transitions (TTSEngine.mk .paused false false [])).2.2.1 rfl⟩

/-- C7: license persistence round-trips: saving the license data and
loading it back restores an equal dictionary. -/
theorem claim7_license_roundtrip (m : LicenseManager) :
    (load_license (save_license m)).license_data = m.license_data := by
  simp [load_license, save_license, decode_encode]

/-- C9: start_trial never fails: for every server outcome it returns True,
sets status TRIAL and persists license data holding the email and the
current time as trial_start, with license_type trial on HTTP 200 and
trial_offline on the offline fallback paths. -/
theorem claim9_start_trial_total (m : LicenseManager) (email : String) (now : Int)
    (r : HttpResult) :
    (start_trial m email now r).2 = true ∧
    (start_trial m email now r).1.status = .trial ∧
    dictGet (start_trial m email now r).1.license_data "email" = some (.str email) ∧
    dictGet (start_trial m email now r).1.license_data "trial_start"
      = some (.str (isoOfTime now)) ∧
    dictGet (start_trial m email now r).1.license_data "license_type"
      = some (.str (trialTypeOf r)) ∧
    (start_trial m email now r).1.license_file
      = some (encode (.obj (start_trial m email now r).1.license_data)) := by
  cases r with
  | exn msg =>
    refine ⟨rfl, rfl, ?_, ?_, ?_, rfl⟩ <;> simp [start_trial, save_license, dictGet, trialTypeOf]
  | resp status body =>
    by_cases hs : status = 200
    · subst hs
      refine ⟨rfl, rfl, ?_, ?_, ?_, rfl⟩ <;>
        simp [start_trial, save_license, dictGet, trialTypeOf]
    · refine ⟨?_, ?_, ?_, ?_, ?_, ?_⟩ <;>
        simp [start_trial, save_license, dictGet, trialTypeOf, hs]

/-- C1: the license gate admits the user exactly in the non-blocking
statuses: whenever validate yields a status, can_use_app returns True
exactly for VALID, TRIAL and OFFLINE and False for TRIAL_EXPIRED, EXPIRED,
INVALID and NO_LICENSE; and validate on empty license data yields
NO_LICENSE. -/
theorem claim1_gate (m : LicenseManager) (now : Int) (r : HttpResult)
    (m' : LicenseManager) (s : LicenseStatus)
    (h : validate m now r = some (m', s)) :
    (s = .valid ∨ s = .trial ∨ s = .offline →
      can_use_app m now r = some (m', true)) ∧
    (s = .trial_expired ∨ s = .expired ∨ s = .invalid ∨ s = .no_license →
      can_use_app m now r = some (m', false)) ∧
    (m.license_data = [] → s = .no_license) := by
  refine ⟨?_, ?_, ?_⟩
  · intro hs
    rw [can_use_app, h]
    rcases hs with rfl | rfl | rfl <;> rfl
  · intro hs
    rw [can_use_app, h]
    rcases hs with rfl | rfl | rfl | rfl <;> rfl
  · intro he
    rw [validate.eq_def, he] at h
    simp at h
    exact h.2.symm

/-- C1 witness: a fresh manager with no license data is rejected with
status NO_LICENSE. -/
theorem claim1_witness :
    can_use_app (newLicenseManager "device") 0 (.exn "down")
      = some ({ newLicenseManager "device" with status := .no_license }, false) := by
  have h : validate (newLicenseManager "device") 0 (.exn "down")
      = some ({ newLicenseManager "device" with status := .no_license }, .no_license) := rfl
  exact (claim1_gate _ 0 (.exn "down") _ _ h).2.1 (Or.inr (Or.inr (Or.inr rfl)))

/-- C2: trial accounting: get_trial_days_left returns the configured
trial_days (30 by default) when no trial_start is recorded and otherwise
max 0 of the whole days remaining until trial_start + trial_days, so it is
never negative (for a non-negative configured trial_days); and for a
trial or trial_offline license, validate returns TRIAL exactly when the
days left are positive and TRIAL_EXPIRED otherwise. -/
theorem claim2_trial_accounting (m : LicenseManager) (now : Int) :
    ((newLicenseManager m.device_id).trial_days = 30) ∧
    (dictGet m.license_data "trial_start" = none →
      get_trial_days_left m now = some m.trial_days) ∧
    (∀ t, dictGet m.license_data "trial_start" = some (.str (isoOfTime t)) →
      get_trial_days_left m now
        = some (max 0 ((t + m.trial_days * 86400 - now).fdiv 86400))) ∧
    (0 ≤ m.trial_days → ∀ d, get_trial_days_left m now = some d → 0 ≤ d) ∧
    (∀ r d,
      (jsonEqStr (dictGetD m.license_data "license_type" (.str "")) "trial"
        || jsonEqStr (dictGetD m.license_data "license_type" (.str "")) "trial_offline")
          = true →
      get_trial_days_left m now = some d →
      validate m now r
        = some (if d > 0 then ({ m with status := .trial }, .trial)
            else ({ m with status := .trial_expired }, .trial_expired))) := by
  refine ⟨rfl, ?_, ?_, ?_, ?_⟩
  · intro h
    rw [get_trial_days_left, h]
  · intro t h
    rw [get_trial_days_left, h]
    simp [fromIso, timeOfIso_isoOfTime]
  · intro h0 d hd
    rw [get_trial_days_left] at hd
    cases hk : dictGet m.license_data "trial_start" with
    | none =>
      rw [hk] at hd
      simp at hd
      omega
    | some v =>
      rw [hk] at hd
      cases hf : fromIso v with
      | none => simp [hf] at hd
      | some ts =>
        simp [hf] at hd
        rw [← hd]
        exact le_max_left _ _
  · intro r d hlt hd
    have hne : m.license_data.isEmpty = false := by
      cases hl : m.license_data with
      | nil => rw [hl] at hlt; simp [dictGetD, dictGet, jsonEqStr] at hlt
      | cons e rest => rfl
    rw [validate.eq_def, hne]
    simp [hlt, hd]
    split <;> rfl

/-- A manager holding a fresh trial license started at time 0. -/
def trialManager : LicenseManager :=
  { newLicenseManager "device" with license_data :=
      [("email", .str "user@example.com"), ("trial_start", .str (isoOfTime 0)),
       ("license_type", .str "trial")] }

/-- C2 witness: a fresh trial started at time 0 has 30 days left and
validates as TRIAL. -/
theorem claim2_witness :
    get_trial_days_left trialManager 0 = some 30 ∧
    validate trialManager 0 (.exn "down")
      = some ({ trialManager with status := .trial }, .trial) := by
  have hc := claim2_trial_accounting trialManager 0
  have h30 := hc.2.2.1 0 rfl
  have h30' : get_trial_days_left trialManager 0 = some 30 := by
    rw [h30]
    decide
  have hv := hc.2.2.2.2 (.exn "down") 30 (by decide) h30'
  rw [if_pos (by decide)] at hv
  exact ⟨h30', hv⟩

/-- C4: remote reconciliation falls back to the local cache for paid
licenses: on a network exception, validate returns EXPIRED when a cached
expiry_date exists and lies in the past and OFFLINE otherwise; on a
non-200 response it returns OFFLINE without consulting the cached
expiry. -/
theorem claim4_paid_fallback (m : LicenseManager) (now : Int)
    (hp : jsonEqStr (dictGetD m.license_data "license_type" (.str "")) "pro" = true ∨
          jsonEqStr (dictGetD m.license_data "license_type" (.str "")) "lifetime" = true) :
    (∀ msg,
      (dictGet m.license_data "expiry_date" = none →
        validate m now (.exn msg) = some ({ m with status := .offline }, .offline)) ∧
      (∀ t, dictGet m.license_data "expiry_date" = some (.str (isoOfTime t)) →
        (t < now →
          validate m now (.exn msg) = some ({ m with status := .expired }, .expired)) ∧
        (¬ t < now →
          validate m now (.exn msg) = some ({ m with status := .offline }, .offline)))) ∧
    (∀ status body, status ≠ 200 →
      validate m now (.resp status body) = some ({ m with status := .offline }, .offline)) := by
  have hne : m.license_data.isEmpty = false := by
    cases hl : m.license_data with
    | nil =>
      rw [hl] at hp
      rcases hp with h | h <;> simp [dictGetD, dictGet, jsonEqStr] at h
    | cons e rest => rfl
  refine ⟨fun msg => ⟨?_, fun t htv => ⟨?_, ?_⟩⟩, fun status body hs => ?_⟩
  · intro hk
    rw [validate.eq_def, hne]
    rcases hp with h | h <;> rw [jsonEqStr_eq_true h] <;>
      simp [jsonEqStr, get_expiry_date, hk]
  · intro hlt
    rw [validate.eq_def, hne]
    rcases hp with h | h <;> rw [jsonEqStr_eq_true h] <;>
      simp [jsonEqStr, get_expiry_date, htv, fromIso, timeOfIso_isoOfTime, hlt]
  · intro hge
    rw [validate.eq_def, hne]
    rcases hp with h | h <;> rw [jsonEqStr_eq_true h] <;>
      simp [jsonEqStr, get_expiry_date, htv, fromIso, timeOfIso_isoOfTime, hge]
  · rw [validate.eq_def, hne]
    rcases hp with h | h <;> rw [jsonEqStr_eq_true h] <;> simp [jsonEqStr, hs]

/-- A manager holding a cached pro license expiring at time 100. -/
def proManager : LicenseManager :=
  { newLicenseManager "device" with license_data :=
      [("email", .str "user@example.com"), ("license_type", .str "pro"),
       ("license_key", .str "KEY-123"), ("expiry_date", .str (isoOfTime 100))] }

/-- C4 witness: offline with the cached expiry in the past yields EXPIRED;
a 500 response yields OFFLINE. -/
theorem claim4_witness :
    validate proManager 200 (.exn "down")
      = some ({ proManager with status := .expired }, .expired) ∧
    validate proManager 0 (.resp 500 [])
      = some ({ proManager with status := .offline }, .offline) := by
  have hp : jsonEqStr (dictGetD proManager.license_data "license_type" (.str "")) "pro"
      = true ∨
      jsonEqStr (dictGetD proManager.license_data "license_type" (.str "")) "lifetime"
      = true := Or.inl rfl
  have h1 := ((claim4_paid_fallback proManager 200 hp).1 "down").2 100 rfl
  have h2 := (claim4_paid_fallback proManager 0 hp).2 500 [] (by decide)
  exact ⟨h1.1 (by decide), h2⟩

/-- C10: activate_license is atomic on failure: a non-200 response or a
network exception returns (False, message) with state, license data and
file untouched; an HTTP 200 response stores the key, sets status VALID and
returns (True, message). -/
theorem claim10_activation_atomic (m : LicenseManager) (key : String) (now : Int) :
    (∀ msg, activate_license m key now (.exn msg)
        = (m, false, "Błąd połączenia: " ++ msg)) ∧
    (∀ status body, status ≠ 200 →
      activate_license m key now (.resp status body)
        = (m, false, "Błąd aktywacji: "
            ++ jsonDisplay (dictGetD body "error" (.str "Nieznany błąd")))) ∧
    (∀ body,
      (activate_license m key now (.resp 200 body)).2.1 = true ∧
      (activate_license m key now (.resp 200 body)).1.status = .valid ∧
      dictGet (activate_license m key now (.resp 200 body)).1.license_data "license_key"
        = some (.str key) ∧
      (activate_license m key now (.resp 200 body)).2.2
        = "Licencja aktywowana pomyślnie!") := by
  refine ⟨fun msg => rfl, fun status body hs => ?_, fun body => ⟨rfl, rfl, ?_, rfl⟩⟩
  · simp [activate_license, hs]
  · have hdata : (activate_license m key now (.resp 200 body)).1.license_data
        = dictSet (dictSet (dictSet (dictSet m.license_data "license_key" (.str key))
            "license_type" (dictGetD body "license_type" (.str "pro")))
            "expiry_date" (dictGetD body "expiry_date" .null))
            "activated_at" (.str (isoOfTime now)) := rfl
    rw [hdata, dictGet_dictSet_ne _ _ _ _ (by decide), dictGet_dictSet_ne _ _ _ _ (by decide),
      dictGet_dictSet_ne _ _ _ _ (by decide), dictGet_dictSet_self]

/-- C10 witness: a 403 response leaves a fresh manager entirely unchanged
and reports the server error message. -/
theorem claim10_witness :
    activate_license (newLicenseManager "device") "KEY-123" 0
        (.resp 403 [("error", .str "bad key")])
      = (newLicenseManager "device", false, "Błąd aktywacji: bad key") := by
  have h := (claim10_activation_atomic (newLicenseManager "device") "KEY-123" 0).2.1 403
    [("error", .str "bad key")] (by decide)
  rw [h]
  rfl

/-- The WAV file _transcribe_audio writes for an engine state. -/
def wavOf (e : STTEngine) : WavFile :=
  { nchannels := e.channels, sampwidth := 2, framerate := e.sample_rate,
    frames := e.audio_buffer.flatten }

theorem transcribe_audio_final (e : STTEngine) (r : GroqResult) :
    (transcribe_audio e r).1 = { e with audio_buffer := [], state := .idle } := by
  cases r with
  | exn msg => by_cases hk : e.api_key = "" <;> simp [transcribe_audio, hk]
  | resp status body =>
    by_cases hk : e.api_key = "" <;> by_cases hst : status = 200 <;>
      simp [transcribe_audio, hk, hst]

theorem transcribe_audio_uploads (e : STTEngine) (r : GroqResult) (hk : e.api_key ≠ "") :
    STTEvent.wav_written (wavOf e) ∈ (transcribe_audio e r).2 ∧
    STTEvent.uploaded groq_api_url (wavOf e) ∈ (transcribe_audio e r).2 := by
  cases r with
  | exn msg => simp [transcribe_audio, hk, wavOf]
  | resp status body =>
    by_cases hst : status = 200 <;> simp [transcribe_audio, hk, hst, wavOf]

/-- C5 (amended): stop_recording is a no-op unless RECORDING; with an
empty buffer the state returns directly to IDLE with no upload; with a
non-empty buffer the state becomes PROCESSING and, provided a Groq API key
is configured, the captured audio is written as a WAV file and uploaded to
the hosted Whisper endpoint (with an empty key the error callback fires
instead and nothing is written or uploaded); in every transcription
outcome the final state is IDLE with an empty buffer. -/
theorem claim5_stt_stop (e : STTEngine) (r : GroqResult) :
    (e.state ≠ .recording → stop_recording e r = (e, [])) ∧
    (e.state = .recording → e.audio_buffer = [] →
      stop_recording e r = ({ e with stop_flag := true, state := .idle },
        [.state_changed .idle])) ∧
    (e.state = .recording → e.audio_buffer ≠ [] →
      (stop_recording e r).1.state = .idle ∧
      (stop_recording e r).1.audio_buffer = [] ∧
      (stop_recording e r).2.head? = some (.state_changed .processing) ∧
      (e.api_key ≠ "" →
        STTEvent.wav_written (wavOf e) ∈ (stop_recording e r).2 ∧
        STTEvent.uploaded groq_api_url (wavOf e) ∈ (stop_recording e r).2)) := by
  refine ⟨fun h => by simp [stop_recording, h], fun h1 h2 => ?_, fun h1 h2 => ?_⟩
  · simp [stop_recording, h1, h2]
  · have hbuf : e.audio_buffer.isEmpty = false := ne_nil_isEmpty h2
    have hstep : stop_recording e r
        = ((transcribe_audio { e with stop_flag := true, state := .processing } r).1,
           .state_changed .processing
             :: (transcribe_audio { e with stop_flag := true, state := .processing } r).2) := by
      simp [stop_recording, h1, hbuf]
    refine ⟨?_, ?_, ?_, fun hk => ?_⟩
    · rw [hstep, transcribe_audio_final]
    · rw [hstep, transcribe_audio_final]
    · rw [hstep]
      rfl
    · rw [hstep]
      have hu := transcribe_audio_uploads { e with stop_flag := true, state := .processing } r hk
      exact ⟨List.mem_cons_of_mem _ hu.1, List.mem_cons_of_mem _ hu.2⟩

/-- True for events that are neither the WAV write nor the upload. -/
def notUploadish : STTEvent → Bool
  | .wav_written _ => false
  | .uploaded _ _ => false
  | _ => true

/-- An engine with no API key configured, mid-recording with a non-empty
buffer. -/
def sttNoKey : STTEngine :=
  { newSTTEngine "" with state := .recording, audio_buffer := [[1, 2]] }

/-- An engine with an API key configured, mid-recording with a non-empty
buffer. -/
def sttWithKey : STTEngine :=
  { newSTTEngine "gsk_key" with state := .recording, audio_buffer := [[1, 2]] }

/-- C5 counterexample: with the default empty Groq API key (the state the
application starts in), stopping a recording with a non-empty buffer
produces no WAV write and no HTTP upload, contradicting the claim as
stated. -/
theorem claim5_counterexample :
    sttNoKey.state = .recording ∧
    sttNoKey.audio_buffer ≠ [] ∧
    (stop_recording sttNoKey (.resp 200 "ok")).2.all notUploadish = true := by
  refine ⟨rfl, by simp [sttNoKey], by decide⟩

/-- C5 witness: with a configured key, stopping a recording with a
non-empty buffer writes and uploads the WAV and ends IDLE with an empty
buffer. -/
theorem claim5_witness :
    (stop_recording sttWithKey (.resp 200 "hello")).1.state = .idle ∧
    STTEvent.uploaded groq_api_url (wavOf sttWithKey)
      ∈ (stop_recording sttWithKey (.resp 200 "hello")).2 := by
  have hc := (claim5_stt_stop sttWithKey (.resp 200 "hello")).2.2 rfl (by simp [sttWithKey])
  exact ⟨hc.1, (hc.2.2.2 (by simp [sttWithKey, newSTTEngine])).2⟩

end VoiceAssistant
